import Mathlib

/-!
# Verification of the go-gsmarena crawler core

A shallow embedding of the repository's core components:

* the dynamic proxy pool (`ProxyManager`: `fetchProxies`, `formatProxy`,
  `GetProxy`, `RemoveProxy`),
* the persistent deduplication store (`BoltStorage`: `IsVisited`, `MarkVisited`),
* the failure classifier of the `OnError` callback in `main.go`,
* an interleaving model of `asyncRefresh` for the single-flight property.

Go strings are modelled as lists of characters (`GoStr`); Go `int` is
modelled as `Int`; fallible operations return `Except`.  External
collaborators (the HTTP client used to reach the proxy-supplier API, the
bbolt key/value store, the colly framework that invokes the callbacks) are
modelled by explicit input parameters (`SupplierResult`, an association
list, the classifier's inputs) as documented at each definition.
-/

/-- Go strings are modelled as lists of characters. -/
abbrev GoStr := List Char

/-- Models Go `unicode.IsSpace` on the ASCII whitespace characters
(space, tab, newline, vertical tab, form feed, carriage return). -/
def isGoSpace (c : Char) : Bool :=
  c = ' ' || c = '\t' || c = '\n' || c = '\x0b' || c = '\x0c' || c = '\r'

/-- Models `strings.TrimSpace`: drop whitespace from both ends. -/
def trimSpace (l : GoStr) : GoStr :=
  ((l.dropWhile isGoSpace).reverse.dropWhile isGoSpace).reverse

/-- Models `strings.ReplaceAll(line, "\r", "")`: every carriage return is removed. -/
def removeCR (l : GoStr) : GoStr := l.filter (fun c => c ≠ '\r')

/-- Models `strings.Split(s, sep)` for a one-character separator: `n`
occurrences of the separator yield `n + 1` pieces; the empty string yields
one empty piece. -/
def splitOnChar (sep : Char) : GoStr → List GoStr
  | [] => [[]]
  | c :: rest =>
    if c = sep then [] :: splitOnChar sep rest
    else
      match splitOnChar sep rest with
      | [] => [[c]]
      | piece :: pieces => (c :: piece) :: pieces

/-- Models `strings.Contains s sub`: `sub` occurs as a contiguous substring
of `s` (the empty pattern is contained in every string). -/
def goContains : GoStr → GoStr → Bool
  | [], sub => sub.isEmpty
  | c :: rest, sub => sub.isPrefixOf (c :: rest) || goContains rest sub

/-- The character list of the Go literal `"http://"`. -/
def httpMarker : GoStr := ['h', 't', 't', 'p', ':', '/', '/']

/-- The character list of the Go literal `"https://"`. -/
def httpsMarker : GoStr := ['h', 't', 't', 'p', 's', ':', '/', '/']

/-! ## Proxy pool (`ProxyManager`) -/

/-- The mutable state of `ProxyManager`.  `apiURL` is not modelled (the
supplier endpoint is an external collaborator passed in as a
`SupplierResult` oracle), and `isRefreshing`/`refreshLock` are modelled
separately in the interleaving semantics `RefreshSys` below. -/
structure ProxyManager where
  proxies : List GoStr
  currentIndex : Int
  minThreshold : Nat
deriving DecidableEq

/-- `ProxyManager.formatProxy`: trim the entry, keep it unchanged when it
already starts with `http://` or `https://`, otherwise prepend `http://`. -/
def formatProxy (raw : GoStr) : GoStr :=
  let r := trimSpace raw
  if httpMarker.isPrefixOf r || httpsMarker.isPrefixOf r then r
  else httpMarker ++ r

/-- The parsing loop of `ProxyManager.fetchProxies`: split the body on
`'\n'`, trim each line, remove carriage returns, skip blank lines and
format every remaining entry. -/
def parseLine (rawLine : GoStr) : Option GoStr :=
  let line := removeCR (trimSpace rawLine)
  if line = [] then none
  else
    let proxy := formatProxy line
    if proxy = [] then none else some proxy

def parseProxies (body : GoStr) : List GoStr :=
  (splitOnChar '\n' body).filterMap parseLine

/-- Outcome of the HTTP GET against the proxy-supplier API (the external
collaborator of `fetchProxies`): the request itself may fail, otherwise a
status code is returned together with the body (`none` when reading the
body fails). -/
inductive SupplierResult where
  | requestError : SupplierResult
  | response (statusCode : Nat) (body : Option GoStr) : SupplierResult
deriving DecidableEq

/-- `ProxyManager.fetchProxies`: on a request error, a non-200 status or a
body-read failure the error is reported and the state is returned as it
was; on success the pool contents are replaced by the parsed list and the
cursor is reset to 0. -/
def fetchProxies (r : SupplierResult) (pm : ProxyManager) :
    Except String Unit × ProxyManager :=
  match r with
  | SupplierResult.requestError => (Except.error "请求代理 API 失败", pm)
  | SupplierResult.response code body =>
    if code ≠ 200 then (Except.error "代理 API 返回非 200 状态码", pm)
    else
      match body with
      | none => (Except.error "读取代理 API 响应失败", pm)
      | some b =>
        (Except.ok (), { pm with proxies := parseProxies b, currentIndex := 0 })

/-- The value returned by one call to `GetProxy`: the selected address (or
an error), the state after the call, and the number of synchronous
`fetchProxies` invocations the call performed. -/
structure GetResult where
  result : Except String GoStr
  pm : ProxyManager
  fetchCalls : Nat

/-- The round-robin selection step of `GetProxy` (lines 152–163): re-check
for an empty pool, return the address at the cursor and advance the cursor
modulo the pool length.  Go's slice indexing is modelled with `List.getD`
(the default is never reached when the cursor invariant holds, see
`cursorInv`); Go's `%` on `int` is truncated division's remainder,
`Int.tmod`. -/
def selectProxy (pm : ProxyManager) (fetchCalls : Nat) : GetResult :=
  if pm.proxies.length = 0 then ⟨Except.error "无可用代理", pm, fetchCalls⟩
  else
    let proxyStr := pm.proxies.getD pm.currentIndex.toNat []
    let pm2 := { pm with
      currentIndex := (pm.currentIndex + 1).tmod (pm.proxies.length : Int) }
    ⟨Except.ok proxyStr, pm2, fetchCalls⟩

/-- `ProxyManager.GetProxy`: on an empty pool, one synchronous
`fetchProxies` call; if it fails or yields an empty pool, an error.
Otherwise round-robin selection.  The low-watermark branch only spawns the
asynchronous `asyncRefresh` goroutine, which has no synchronous effect on
the state and is modelled separately by `RefreshSys`; the final
`url.Parse` of the selected string is modelled by `getScheme` below. -/
def GetProxy (r : SupplierResult) (pm : ProxyManager) : GetResult :=
  if pm.proxies.length = 0 then
    match fetchProxies r pm with
    | (Except.error _, pm1) => ⟨Except.error "无可用代理且刷新失败", pm1, 1⟩
    | (Except.ok _, pm1) =>
      if pm1.proxies.length = 0 then ⟨Except.error "刷新后仍无可用代理", pm1, 1⟩
      else selectProxy pm1 1
  else
    selectProxy pm 0

/-- `ProxyManager.RemoveProxy`: remove the first occurrence of the address
(Go's loop finds the first index `i` with `proxies[i] == proxyURL` and
splices it out); reset the cursor to 0 when it would reference past the
shrunk list; a no-op when the address is not present.  The below-watermark
branch only spawns `asyncRefresh` (no synchronous effect). -/
def RemoveProxy (pm : ProxyManager) (proxyURL : GoStr) : ProxyManager :=
  match pm.proxies.findIdx? (fun p => p == proxyURL) with
  | none => pm
  | some i =>
    let newProxies := pm.proxies.take i ++ pm.proxies.drop (i + 1)
    let newIndex :=
      if pm.currentIndex ≥ (newProxies.length : Int) ∧ 0 < newProxies.length
      then 0 else pm.currentIndex
    { pm with proxies := newProxies, currentIndex := newIndex }

/-- The cursor-validity invariant: the cursor is never negative and is
strictly below the pool length whenever the pool is non-empty. -/
def cursorInv (pm : ProxyManager) : Prop :=
  0 ≤ pm.currentIndex ∧
    (pm.proxies ≠ [] → pm.currentIndex < (pm.proxies.length : Int))

instance (pm : ProxyManager) : Decidable (cursorInv pm) := by
  unfold cursorInv; infer_instance

/-- Every pool entry carries an explicit `http://` or `https://` prefix. -/
def hasHttpScheme (p : GoStr) : Bool :=
  httpMarker.isPrefixOf p || httpsMarker.isPrefixOf p

/-- The scheme invariant of the pool (claim C10). -/
def schemeInv (pm : ProxyManager) : Prop :=
  ∀ p ∈ pm.proxies, hasHttpScheme p = true

instance (pm : ProxyManager) : Decidable (schemeInv pm) := by
  unfold schemeInv; infer_instance

/-- A character allowed inside a URL scheme after the first (alphabetic)
character: letters, digits, `+`, `-`, `.`. -/
def schemeCharOk (c : Char) : Bool :=
  c.isAlpha || c.isDigit || c = '+' || c = '-' || c = '.'

/-- Helper of `getScheme`: scan for the `':'` that terminates the scheme. -/
def getSchemeAux (acc : GoStr) : GoStr → Option GoStr
  | [] => none
  | c :: rest =>
    if c = ':' then some acc
    else if schemeCharOk c then getSchemeAux (acc ++ [c]) rest
    else none

/-- Modelled from the spec: the scheme extraction performed by the external
`net/url.Parse` on the string returned by `GetProxy` — the longest prefix
of scheme characters (first character alphabetic) terminated by `':'`;
`none` when the string has no scheme. -/
def getScheme (s : GoStr) : Option GoStr :=
  match s with
  | [] => none
  | c :: rest => if c.isAlpha then getSchemeAux [c] rest else none

/-! ## Deduplication store (`BoltStorage`) -/

/-- The bbolt bucket backing `BoltStorage`, modelled as an association
list from keys to stored values.  The bucket exists by construction
(`NewBoltStorage` creates it), and the healthy store's `View`/`Update`
transactions are modelled as always succeeding. -/
structure BoltStorage where
  entries : List (String × String)
deriving DecidableEq

/-- Models bbolt's `Bucket.Put`: insert the key, overwriting the value
stored under an existing key. -/
def putKey : List (String × String) → String → String → List (String × String)
  | [], k, v => [(k, v)]
  | (k0, v0) :: rest, k, v =>
    if k0 = k then (k, v) :: rest else (k0, v0) :: putKey rest k v

/-- `BoltStorage.IsVisited`: true exactly when bbolt's `Bucket.Get`
returns a non-nil value, i.e. when the key is present. -/
def IsVisited (s : BoltStorage) (url : String) : Bool :=
  (s.entries.lookup url).isSome

/-- `BoltStorage.MarkVisited`: store the timestamp (passed here as a
parameter; the code uses the current time) under the URL key. -/
def MarkVisited (s : BoltStorage) (url timestamp : String) :
    Except String BoltStorage :=
  Except.ok { entries := putKey s.entries url timestamp }

/-! ## Failure classifier (`setupCallbacks`, `OnError` in `main.go`) -/

/-- The five outcomes of classifying a fetch result.  `Success` is the
case in which the framework does not invoke the `OnError` handler at all;
the other three are the branches of the handler's `switch`. -/
inductive FetchClass where
  | Success : FetchClass
  | Retryable : FetchClass
  | SkipAndMark : FetchClass
  | SkipNoMark : FetchClass
deriving DecidableEq

/-- The error-text test of the handler's third `case`: the error string
contains `"timeout"`, `"connection refused"` or `"EOF"` (case-sensitive
substring tests via `strings.Contains`). -/
def isTransportErrText (e : GoStr) : Bool :=
  goContains e "timeout".data || goContains e "connection refused".data ||
    goContains e "EOF".data

/-- The handler's `switch` (main.go 184–205), first match wins:
status 404 → `SkipAndMark`; status 403, 429 or 503 → `Retryable`;
a non-nil error whose text passes `isTransportErrText` → `Retryable`;
anything else → `SkipNoMark`. -/
def classifyError (statusCode : Nat) (err : Option GoStr) : FetchClass :=
  if statusCode = 404 then FetchClass.SkipAndMark
  else if statusCode = 403 || statusCode = 429 || statusCode = 503 then
    FetchClass.Retryable
  else
    match err with
    | some e =>
      if isTransportErrText e then FetchClass.Retryable else FetchClass.SkipNoMark
    | none => FetchClass.SkipNoMark

/-- Modelled from the spec: the external framework invokes `OnError` for a
transport error or a non-success status; "no error and acceptable status"
(a 2xx success status with no error) is a `Success` and never reaches the
handler. -/
def acceptableStatus (s : Nat) : Bool := 200 ≤ s && s < 300

/-- The full per-attempt classification: `Success` when there is no error
and the status is acceptable, otherwise the `OnError` switch. -/
def classify (statusCode : Nat) (err : Option GoStr) : FetchClass :=
  if err.isNone && acceptableStatus statusCode then FetchClass.Success
  else classifyError statusCode err

/-- The shared mutable state the `OnError` handler acts on: the proxy pool
and the deduplication store. -/
structure CrawlState where
  pm : ProxyManager
  storage : BoltStorage
deriving DecidableEq

/-- The effects of the `OnError` handler (main.go 173–219): the 404 branch
marks the request URL visited (its error ignored by `_ =`); the branches
that set `shouldRetry` evict the used proxy (when one was set) and retry.
Returns the new state and whether the request was re-enqueued
(`r.Request.Retry()`, an external framework call, is modelled by the
returned Boolean). -/
def onError (statusCode : Nat) (err : Option GoStr) (requestURL : String)
    (proxyURL : GoStr) (timestamp : String) (st : CrawlState) :
    CrawlState × Bool :=
  let step1 : CrawlState × Bool :=
    if statusCode = 404 then
      match MarkVisited st.storage requestURL timestamp with
      | Except.ok s2 => ({ st with storage := s2 }, false)
      | Except.error _ => (st, false)
    else if statusCode = 403 || statusCode = 429 || statusCode = 503 then
      (st, true)
    else
      match err with
      | some e => if isTransportErrText e then (st, true) else (st, false)
      | none => (st, false)
  if step1.2 then
    let st2 :=
      if proxyURL ≠ [] then
        { step1.1 with pm := RemoveProxy step1.1.pm proxyURL }
      else step1.1
    (st2, true)
  else (step1.1, false)

/-! ## Interleaving model of `asyncRefresh` (single-flight, claim C7) -/

/-- The shared state seen by concurrently spawned `asyncRefresh`
goroutines: the holder of `refreshLock`, the `isRefreshing` flag, the
number of supplier calls performed so far (`fetchProxies` invocations) and
one program counter per goroutine. -/
structure RefreshSys where
  lockHolder : Option Nat
  isRefreshing : Bool
  supplierCalls : Nat
  pcs : List Nat
deriving DecidableEq

/-- One atomic step of goroutine `g` running `asyncRefresh` (proxy pool
175–193).  Program counters:
0 = `refreshLock.Lock()` (no progress while another goroutine holds it);
1 = the `isRefreshing` check — on early return only the already-deferred
`Unlock` runs;
2 = `isRefreshing = true`;
3 = the `fetchProxies()` supplier call;
4 = the deferred `isRefreshing = false` (deferred last, so it runs first);
5 = the deferred `refreshLock.Unlock()`;
6 = done. -/
def refreshStep (s : RefreshSys) (g : Nat) : RefreshSys :=
  match s.pcs.getD g 6 with
  | 0 =>
    match s.lockHolder with
    | some _ => s
    | none => { s with lockHolder := some g, pcs := s.pcs.set g 1 }
  | 1 =>
    if s.isRefreshing then { s with lockHolder := none, pcs := s.pcs.set g 6 }
    else { s with pcs := s.pcs.set g 2 }
  | 2 => { s with isRefreshing := true, pcs := s.pcs.set g 3 }
  | 3 => { s with supplierCalls := s.supplierCalls + 1, pcs := s.pcs.set g 4 }
  | 4 => { s with isRefreshing := false, pcs := s.pcs.set g 5 }
  | 5 => { s with lockHolder := none, pcs := s.pcs.set g 6 }
  | _ => s

/-- Run a schedule: at each entry the named goroutine takes one step. -/
def runSchedule (sched : List Nat) (s : RefreshSys) : RefreshSys :=
  sched.foldl refreshStep s

/-- Two goroutines, both spawned to run `asyncRefresh`, nothing started. -/
def twoTriggers : RefreshSys :=
  { lockHolder := none, isRefreshing := false, supplierCalls := 0, pcs := [0, 0] }

/-! ## Iteration and parsing harnesses used by the claims -/

/-- `n` consecutive `GetProxy` calls.  The supplier oracle is
`requestError` so that no replenishment can alter the pool: with a
non-empty pool the oracle is never consulted (claim C1's "no evictions and
no replenishments in between"). -/
def acquireSeq : Nat → ProxyManager → List GoStr × ProxyManager
  | 0, pm => ([], pm)
  | n + 1, pm =>
    let r := GetProxy SupplierResult.requestError pm
    match r.result with
    | Except.ok a =>
      let rest := acquireSeq n r.pm
      (a :: rest.1, rest.2)
    | Except.error _ => ([], r.pm)

/-- What the parsing loop of `fetchProxies` makes of a single line that
contains no line-terminator characters: skipped when blank after
trimming, otherwise trimmed and normalized by `formatProxy`. -/
def cleanEntry (l : GoStr) : Option GoStr :=
  if trimSpace l = [] then none else some (formatProxy (trimSpace l))

/-- A supplier response body built from a list of lines joined by the
given terminator (`['\n']` or `['\r', '\n']`). -/
def joinSep (sep : GoStr) : List GoStr → GoStr
  | [] => []
  | [l] => l
  | l :: next :: rest => l ++ sep ++ joinSep sep (next :: rest)

/-! ## Helper lemmas -/

theorem selectProxy_of_ne (pm : ProxyManager) (c : Nat)
    (h : pm.proxies.length ≠ 0) :
    selectProxy pm c =
      ⟨Except.ok (pm.proxies.getD pm.currentIndex.toNat []),
        { pm with currentIndex :=
            (pm.currentIndex + 1).tmod (pm.proxies.length : Int) }, c⟩ := by
  simp [selectProxy, h]

theorem GetProxy_of_ne (r : SupplierResult) (pm : ProxyManager)
    (h : pm.proxies.length ≠ 0) : GetProxy r pm = selectProxy pm 0 := by
  simp [GetProxy, h]

theorem lookup_putKey_self (l : List (String × String)) (k v : String) :
    (putKey l k v).lookup k = some v := by
  induction l with
  | nil => simp [putKey, List.lookup]
  | cons kv rest ih =>
    obtain ⟨k0, v0⟩ := kv
    by_cases hk : k0 = k
    · simp [putKey, hk, List.lookup]
    · have hne : (k == k0) = false := by
        simp [beq_iff_eq]; exact fun he => hk he.symm
      simp [putKey, hk, List.lookup, hne, ih]

theorem lookup_putKey_ne (l : List (String × String)) (k v k' : String)
    (h : k' ≠ k) : (putKey l k v).lookup k' = l.lookup k' := by
  have hne : (k' == k) = false := by simp [beq_iff_eq]; exact h
  induction l with
  | nil => simp [putKey, List.lookup, hne]
  | cons kv rest ih =>
    obtain ⟨k0, v0⟩ := kv
    by_cases hk : k0 = k
    · subst hk; simp [putKey, List.lookup, hne]
    · simp [putKey, hk, List.lookup, ih]

theorem findIdx?_beq_none_iff (l : List GoStr) (a : GoStr) :
    l.findIdx? (fun p => p == a) = none ↔ a ∉ l := by
  induction l with
  | nil => simp
  | cons x xs ih =>
    by_cases hx : x == a
    · have : x = a := by simpa [beq_iff_eq] using hx
      subst this
      simp [List.findIdx?_cons, hx]
    · have hxa : x ≠ a := by simpa [beq_iff_eq] using hx
      simp [List.findIdx?_cons, hx, ih, hxa, Ne.symm hxa]

theorem take_append_drop_of_findIdx? (l : List GoStr) (a : GoStr) :
    ∀ i, l.findIdx? (fun p => p == a) = some i →
      l.take i ++ l.drop (i + 1) = l.erase a := by
  induction l with
  | nil => intro i h; simp at h
  | cons x xs ih =>
    intro i h
    by_cases hx : x == a
    · have hx' : x = a := by simpa [beq_iff_eq] using hx
      rw [List.findIdx?_cons] at h
      simp [hx] at h
      subst h
      simp [List.erase_cons, hx]
    · rw [List.findIdx?_cons] at h
      simp [hx] at h
      obtain ⟨j, hj, hij⟩ := h
      subst hij
      simp [List.erase_cons, hx]
      exact ih j hj

/-! ## Claim theorems -/

/-- C3: `fetchProxies` is atomic with respect to failure — if the supplier
request errors, returns a non-200 status, or its body cannot be read, the
pool contents and cursor are left exactly as they were; on success the
pool contents are wholly replaced by the parsed list and the cursor is
reset to 0. -/
theorem fetchProxies_atomic (pm : ProxyManager) (r : SupplierResult) :
    ((fetchProxies r pm).1 ≠ Except.ok () → (fetchProxies r pm).2 = pm) ∧
    ((fetchProxies r pm).1 = Except.ok () →
      ∃ b, r = SupplierResult.response 200 (some b) ∧
        (fetchProxies r pm).2 =
          { pm with proxies := parseProxies b, currentIndex := 0 }) ∧
    (r = SupplierResult.requestError → (fetchProxies r pm).1 ≠ Except.ok ()) ∧
    (∀ code body, r = SupplierResult.response code body → code ≠ 200 →
      (fetchProxies r pm).1 ≠ Except.ok ()) ∧
    (∀ code, r = SupplierResult.response code none →
      (fetchProxies r pm).1 ≠ Except.ok ()) := by
  rcases r with _ | ⟨code, body⟩
  · simp [fetchProxies]
  · by_cases hc : code = 200
    · subst hc
      rcases body with _ | b
      · simp [fetchProxies]
      · simp [fetchProxies]
    · rcases body with _ | b <;> simp [fetchProxies, hc]

/-- Witness for C3: a 500-status supplier response leaves the pool and
cursor untouched. -/
theorem fetchProxies_atomic_witness :
    (fetchProxies (SupplierResult.response 500 none)
        ⟨["http://a".data], 0, 5⟩).2 = ⟨["http://a".data], 0, 5⟩ :=
  (fetchProxies_atomic ⟨["http://a".data], 0, 5⟩
      (SupplierResult.response 500 none)).1 (by simp [fetchProxies])

/-- C4: `GetProxy` on an empty pool performs exactly one synchronous
`fetchProxies` call; if that call fails or yields zero addresses the
result is an error, otherwise an address from the fresh pool is
returned. -/
theorem GetProxy_emptyPool (pm : ProxyManager) (r : SupplierResult)
    (h : pm.proxies = []) :
    (GetProxy r pm).fetchCalls = 1 ∧
    ((fetchProxies r pm).1 ≠ Except.ok () →
      ∃ msg, (GetProxy r pm).result = Except.error msg) ∧
    (∀ b, r = SupplierResult.response 200 (some b) → parseProxies b = [] →
      ∃ msg, (GetProxy r pm).result = Except.error msg) ∧
    (∀ b, r = SupplierResult.response 200 (some b) → parseProxies b ≠ [] →
      ∃ a, (GetProxy r pm).result = Except.ok a ∧ a ∈ parseProxies b) := by
  have hlen : pm.proxies.length = 0 := by simp [h]
  rcases r with _ | ⟨code, body⟩
  · simp [GetProxy, hlen, fetchProxies]
  · by_cases hc : code = 200
    · subst hc
      rcases body with _ | b
      · simp [GetProxy, hlen, fetchProxies]
      · by_cases hb : parseProxies b = []
        · simp [GetProxy, hlen, fetchProxies, hb]
        · have hlb : (parseProxies b).length ≠ 0 := by simp [hb]
          have h0 : 0 < (parseProxies b).length := Nat.pos_of_ne_zero hlb
          refine ⟨?_, ?_, ?_, ?_⟩
          · simp [GetProxy, hlen, fetchProxies, hlb, selectProxy]
          · intro hne; exact absurd (by simp [fetchProxies]) hne
          · intro b' hb' hpb'
            have hbb : b = b' := by simpa using hb'
            subst hbb
            exact absurd hpb' hb
          · intro b' hb' _
            have hbb : b = b' := by simpa using hb'
            subst hbb
            refine ⟨(parseProxies b).getD 0 [], ?_, ?_⟩
            · simp [GetProxy, hlen, fetchProxies, hlb, selectProxy]
            · rw [List.getD_eq_getElem (parseProxies b) [] h0]
              exact List.getElem_mem h0
    · rcases body with _ | b <;> simp [GetProxy, hlen, fetchProxies, hc]

/-- Witness for C4: on an empty pool with a failing supplier the call
counts one fetch and returns an error. -/
theorem GetProxy_emptyPool_witness :
    (GetProxy SupplierResult.requestError ⟨[], 0, 5⟩).fetchCalls = 1 :=
  (GetProxy_emptyPool ⟨[], 0, 5⟩ SupplierResult.requestError rfl).1

/-- C6: `MarkVisited` is idempotent — a second mark of the same key after
a successful first mark succeeds, `IsVisited` is true after either call,
and only key presence (never the stored value) matters to `IsVisited`. -/
theorem markVisited_idempotent (s : BoltStorage) (X t1 t2 : String)
    (s1 : BoltStorage) (h : MarkVisited s X t1 = Except.ok s1) :
    IsVisited s1 X = true ∧
    (∃ s2, MarkVisited s1 X t2 = Except.ok s2 ∧ IsVisited s2 X = true) ∧
    (∀ st u1 u2 : BoltStorage, ∀ q w1 w2 : String,
      MarkVisited st X w1 = Except.ok u1 → MarkVisited st X w2 = Except.ok u2 →
      IsVisited u1 q = IsVisited u2 q) := by
  have hs1 : s1 = ⟨putKey s.entries X t1⟩ := by
    simpa [MarkVisited] using h.symm
  refine ⟨?_, ?_, ?_⟩
  · subst hs1; simp [IsVisited, lookup_putKey_self]
  · exact ⟨⟨putKey s1.entries X t2⟩, rfl, by simp [IsVisited, lookup_putKey_self]⟩
  · intro st u1 u2 q w1 w2 h1 h2
    have hu1 : u1 = ⟨putKey st.entries X w1⟩ := by
      simpa [MarkVisited] using h1.symm
    have hu2 : u2 = ⟨putKey st.entries X w2⟩ := by
      simpa [MarkVisited] using h2.symm
    subst hu1; subst hu2
    by_cases hq : q = X
    · subst hq; simp [IsVisited, lookup_putKey_self]
    · simp [IsVisited, lookup_putKey_ne _ _ _ _ hq]

/-- Witness for C6: marking "X" twice leaves it visited. -/
theorem markVisited_idempotent_witness :
    IsVisited ⟨[("X", "t1")]⟩ "X" = true :=
  (markVisited_idempotent ⟨[]⟩ "X" "t1" "t2" ⟨[("X", "t1")]⟩ rfl).1

theorem RemoveProxy_proxies_erase (pm : ProxyManager) (a : GoStr) :
    (RemoveProxy pm a).proxies = pm.proxies.erase a := by
  cases hf : pm.proxies.findIdx? (fun p => p == a) with
  | none =>
    have hmem : a ∉ pm.proxies := (findIdx?_beq_none_iff pm.proxies a).mp hf
    simp [RemoveProxy, hf, List.erase_of_not_mem hmem]
  | some i =>
    simp [RemoveProxy, hf]
    exact take_append_drop_of_findIdx? pm.proxies a i hf

/-- C9: `RemoveProxy` of an absent address leaves the pool contents and
the cursor unchanged, and removal of a present address removes exactly
the first matching occurrence (`List.erase` removes the first occurrence). -/
theorem removeProxy_frame (pm : ProxyManager) (a : GoStr) :
    (a ∉ pm.proxies → RemoveProxy pm a = pm) ∧
    (RemoveProxy pm a).proxies = pm.proxies.erase a := by
  refine ⟨?_, RemoveProxy_proxies_erase pm a⟩
  intro hmem
  have hf : pm.proxies.findIdx? (fun p => p == a) = none :=
    (findIdx?_beq_none_iff pm.proxies a).mpr hmem
  simp [RemoveProxy, hf]

/-- Witness for C9: evicting an address not in the pool changes nothing. -/
theorem removeProxy_frame_witness :
    RemoveProxy ⟨["http://a".data], 0, 5⟩ "http://z".data
      = ⟨["http://a".data], 0, 5⟩ :=
  (removeProxy_frame ⟨["http://a".data], 0, 5⟩ "http://z".data).1 (by decide)

theorem findIdx?_some_lt (l : List GoStr) (p : GoStr → Bool) :
    ∀ i, l.findIdx? p = some i → i < l.length := by
  induction l with
  | nil => intro i h; simp at h
  | cons x xs ih =>
    intro i h
    rw [List.findIdx?_cons] at h
    by_cases hp : p x
    · simp [hp] at h
      simp [List.length_cons]
      omega
    · simp [hp] at h
      obtain ⟨j, hj, hji⟩ := h
      have := ih j hj
      simp
      omega

theorem cursorInv_selectProxy (pm : ProxyManager) (c : Nat) (h : cursorInv pm) :
    cursorInv (selectProxy pm c).pm := by
  by_cases hlen : pm.proxies.length = 0
  · simpa [selectProxy, hlen] using h
  · have h1 := h.1
    have hnn : (0 : Int) ≤ pm.currentIndex + 1 := by omega
    rw [selectProxy_of_ne pm c hlen]
    refine ⟨Int.tmod_nonneg _ hnn, fun _ => ?_⟩
    show (pm.currentIndex + 1).tmod (pm.proxies.length : Int)
      < (pm.proxies.length : Int)
    exact Int.tmod_lt_of_pos _ (by exact_mod_cast Nat.pos_of_ne_zero hlen)

/-- C5: every pool operation preserves the cursor invariant — the cursor
stays non-negative and strictly below the pool length whenever the pool is
non-empty — and `RemoveProxy` resets the cursor to 0 when it would
otherwise reference past the shrunk list. -/
theorem cursorInv_preserved (pm : ProxyManager) (r : SupplierResult)
    (a : GoStr) (h : cursorInv pm) :
    cursorInv (fetchProxies r pm).2 ∧
    cursorInv (GetProxy r pm).pm ∧
    cursorInv (RemoveProxy pm a) ∧
    (a ∈ pm.proxies → ((pm.proxies.length : Int) - 1) ≤ pm.currentIndex →
      1 < pm.proxies.length → (RemoveProxy pm a).currentIndex = 0) := by
  have hfresh : ∀ b, cursorInv
      ({ pm with proxies := parseProxies b, currentIndex := 0 }) := by
    intro b
    refine ⟨le_refl 0, fun hne => ?_⟩
    show (0 : Int) < ((parseProxies b).length : Int)
    exact_mod_cast List.length_pos.mpr (by simpa using hne)
  have hfetch : cursorInv (fetchProxies r pm).2 := by
    rcases r with _ | ⟨code, body⟩
    · exact h
    · by_cases hc : code = 200
      · subst hc
        rcases body with _ | b
        · simpa [fetchProxies] using h
        · simpa [fetchProxies] using hfresh b
      · rcases body with _ | b <;> simpa [fetchProxies, hc] using h
  refine ⟨hfetch, ?_, ?_, ?_⟩
  · by_cases hlen : pm.proxies.length = 0
    · rcases r with _ | ⟨code, body⟩
      · simpa [GetProxy, hlen, fetchProxies] using h
      · by_cases hc : code = 200
        · subst hc
          rcases body with _ | b
          · simpa [GetProxy, hlen, fetchProxies] using h
          · by_cases hb : (parseProxies b).length = 0
            · simpa [GetProxy, hlen, fetchProxies, hb] using hfresh b
            · have := cursorInv_selectProxy
                { pm with proxies := parseProxies b, currentIndex := 0 } 1
                (hfresh b)
              simpa [GetProxy, hlen, fetchProxies, hb] using this
        · rcases body with _ | b <;>
            simpa [GetProxy, hlen, fetchProxies, hc] using h
    · rw [GetProxy_of_ne r pm hlen]
      exact cursorInv_selectProxy pm 0 h
  · cases hf : pm.proxies.findIdx? (fun p => p == a) with
    | none => simpa [RemoveProxy, hf] using h
    | some i =>
      have hlt := findIdx?_some_lt pm.proxies (fun p => p == a) i hf
      have hlen : (pm.proxies.take i ++ pm.proxies.drop (i + 1)).length
          = pm.proxies.length - 1 := by
        simp [List.length_take, List.length_drop]
        omega
      have h1 := h.1
      have h2 : pm.currentIndex < (pm.proxies.length : Int) := by
        apply h.2
        intro hcon
        rw [hcon] at hlt
        simp at hlt
      constructor
      · simp only [RemoveProxy, hf]
        split <;> omega
      · intro hne
        simp only [RemoveProxy, hf] at hne ⊢
        have hpos : 0 < (pm.proxies.take i ++ pm.proxies.drop (i + 1)).length :=
          List.length_pos.mpr hne
        split <;> omega
  · intro hmem hge hlen1
    cases hf : pm.proxies.findIdx? (fun p => p == a) with
    | none => exact absurd hmem ((findIdx?_beq_none_iff pm.proxies a).mp hf)
    | some i =>
      have hlen : (pm.proxies.take i ++ pm.proxies.drop (i + 1)).length
          = pm.proxies.length - 1 := by
        have hlt := findIdx?_some_lt pm.proxies (fun p => p == a) i hf
        simp [List.length_take, List.length_drop]
        omega
      have hcond : pm.currentIndex
            ≥ ((pm.proxies.take i ++ pm.proxies.drop (i + 1)).length : Int)
          ∧ 0 < (pm.proxies.take i ++ pm.proxies.drop (i + 1)).length := by
        constructor <;> omega
      simp only [RemoveProxy, hf]
      rw [if_pos hcond]

/-- Witness for C5: eviction at the last cursor position resets to 0. -/
theorem cursorInv_preserved_witness :
    cursorInv (RemoveProxy ⟨["http://a".data, "http://b".data], 1, 5⟩
      "http://b".data) :=
  (cursorInv_preserved ⟨["http://a".data, "http://b".data], 1, 5⟩
      SupplierResult.requestError "http://b".data (by decide)).2.2.1

theorem count_one_of_nodup_mem (l : List GoStr) (a : GoStr)
    (hnd : l.Nodup) (ha : a ∈ l) : l.count a = 1 := by
  induction l with
  | nil => simp at ha
  | cons x xs ih =>
    rw [List.count_cons]
    rcases List.mem_cons.mp ha with h | h
    · subst h
      have hx : a ∉ xs := (List.nodup_cons.mp hnd).1
      have hz : xs.count a = 0 := List.count_eq_zero.mpr hx
      simp [hz]
    · have hnd2 := (List.nodup_cons.mp hnd).2
      have hxx : x ∉ xs := (List.nodup_cons.mp hnd).1
      have hax : ¬ a = x := by
        intro he; subst he; exact hxx h
      simp [ih hnd2 h, hax]
      exact fun he => hax he.symm

theorem GetProxy_step (p : List GoStr) (j m : Nat) (hlen : p.length ≠ 0) :
    GetProxy SupplierResult.requestError ⟨p, (j : Int), m⟩ =
      ⟨Except.ok (p.getD j []), ⟨p, (((j + 1) % p.length : Nat) : Int), m⟩, 0⟩ := by
  rw [GetProxy_of_ne _ _ hlen, selectProxy_of_ne _ _ hlen]
  have h1 : ((j : Int)).toNat = j := Int.toNat_natCast j
  have h2 : ((j : Int) + 1).tmod ((p.length : Nat) : Int)
      = (((j + 1) % p.length : Nat) : Int) := by
    have hc : ((j : Int) + 1) = ((j + 1 : Nat) : Int) := by push_cast; ring
    rw [hc, ← Int.ofNat_tmod]
  rw [h1, h2]

theorem acquireSeq_run (p : List GoStr) (m : Nat) :
    ∀ k j : Nat, j < p.length → k = p.length - j →
      acquireSeq k ⟨p, (j : Int), m⟩ = (p.drop j, ⟨p, 0, m⟩) := by
  intro k
  induction k with
  | zero => intro j hj hk; omega
  | succ n ih =>
    intro j hj hk
    have hlen : p.length ≠ 0 := by omega
    have hstep := GetProxy_step p j m hlen
    by_cases hj1 : j + 1 < p.length
    · have hmod : (j + 1) % p.length = j + 1 := Nat.mod_eq_of_lt hj1
      have hrec := ih (j + 1) hj1 (by omega)
      rw [show acquireSeq (n + 1) ⟨p, (j : Int), m⟩
            = (p.getD j [] :: (acquireSeq n
                  ⟨p, (((j + 1) % p.length : Nat) : Int), m⟩).1,
               (acquireSeq n ⟨p, (((j + 1) % p.length : Nat) : Int), m⟩).2)
          from by rw [acquireSeq, hstep]]
      rw [hmod, hrec]
      rw [List.getD_eq_getElem p [] hj, List.drop_eq_getElem_cons hj]
    · have hj2 : j + 1 = p.length := by omega
      have hmod : (j + 1) % p.length = 0 := by rw [hj2]; exact Nat.mod_self _
      have hn : n = 0 := by omega
      rw [show acquireSeq (n + 1) ⟨p, (j : Int), m⟩
            = (p.getD j [] :: (acquireSeq n
                  ⟨p, (((j + 1) % p.length : Nat) : Int), m⟩).1,
               (acquireSeq n ⟨p, (((j + 1) % p.length : Nat) : Int), m⟩).2)
          from by rw [acquireSeq, hstep]]
      subst hn
      rw [hmod]
      simp only [acquireSeq]
      rw [List.getD_eq_getElem p [] hj, List.drop_eq_getElem_cons hj]
      rw [show j + 1 = p.length from hj2, List.drop_length]
      simp

/-- C1: with a pool of `N` distinct addresses and the cursor at 0 (the
state after the last load), `N` consecutive `GetProxy` calls with no
evictions and no replenishments in between return every address exactly
once, in insertion order, and leave the cursor advanced modulo the pool
length back to 0. -/
theorem roundRobin_fair (p : List GoStr) (m : Nat) (hne : p ≠ [])
    (hnd : p.Nodup) :
    (acquireSeq p.length ⟨p, 0, m⟩).1 = p ∧
    (∀ a ∈ p, (acquireSeq p.length ⟨p, 0, m⟩).1.count a = 1) ∧
    (acquireSeq p.length ⟨p, 0, m⟩).2 = ⟨p, 0, m⟩ := by
  have hlen : 0 < p.length := List.length_pos.mpr hne
  have h := acquireSeq_run p m p.length 0 hlen (by omega)
  rw [Nat.cast_zero, List.drop_zero] at h
  refine ⟨by rw [h], fun a ha => ?_, by rw [h]⟩
  rw [h]
  exact count_one_of_nodup_mem p a hnd ha

/-- Witness for C1: a two-address pool is returned in insertion order. -/
theorem roundRobin_fair_witness :
    (acquireSeq 2 ⟨["http://a".data, "http://b".data], 0, 5⟩).1
      = ["http://a".data, "http://b".data] :=
  (roundRobin_fair ["http://a".data, "http://b".data] 5 (by decide)
      (by decide)).1

/-- C2 counterexample: a zero-status transport failure whose error text
contains none of `"timeout"`, `"connection refused"`, `"EOF"` (here
`"connection reset by peer"`) is classified `SkipNoMark`, not `Retryable`
as the claim states, and the handler neither evicts nor retries. -/
theorem classifier_zeroStatus_counterexample :
    classify 0 (some "connection reset by peer".data) = FetchClass.SkipNoMark ∧
    classify 0 (some "connection reset by peer".data) ≠ FetchClass.Retryable ∧
    onError 0 (some "connection reset by peer".data) "u" "http://a".data "ts"
        ⟨⟨["http://a".data], 0, 5⟩, ⟨[]⟩⟩
      = (⟨⟨["http://a".data], 0, 5⟩, ⟨[]⟩⟩, false) := by
  refine ⟨by decide, by decide, by decide⟩

/-- C2 (amended): the classifier applies, in order with first match
winning — status 404 → `SkipAndMark`; status 403/429/503 → `Retryable`;
any remaining failure whose error text contains `"timeout"`,
`"connection refused"` or `"EOF"` → `Retryable`; any other error →
`SkipNoMark`; no error with acceptable status → `Success`.  `Retryable`
evicts the used proxy and retries, `SkipAndMark` marks the request URL
visited without retrying, `SkipNoMark` leaves all state unchanged. -/
theorem classifier_rules_amended :
    (∀ err, classify 404 err = FetchClass.SkipAndMark) ∧
    (∀ s err, s = 403 ∨ s = 429 ∨ s = 503 →
      classify s err = FetchClass.Retryable) ∧
    (∀ s e, ¬(s = 404 ∨ s = 403 ∨ s = 429 ∨ s = 503) →
      isTransportErrText e = true → classify s (some e) = FetchClass.Retryable) ∧
    (∀ s e, ¬(s = 404 ∨ s = 403 ∨ s = 429 ∨ s = 503) →
      isTransportErrText e = false → classify s (some e) = FetchClass.SkipNoMark) ∧
    (∀ s, acceptableStatus s = true → classify s none = FetchClass.Success) ∧
    (∀ st : CrawlState, ∀ url ts : String, ∀ purl : GoStr,
      ∀ status : Nat, ∀ err : Option GoStr, purl ≠ [] →
      (classifyError status err = FetchClass.Retryable →
        onError status err url purl ts st
          = ({ st with pm := RemoveProxy st.pm purl }, true)) ∧
      (classifyError status err = FetchClass.SkipAndMark →
        onError status err url purl ts st
          = ({ st with storage := ⟨putKey st.storage.entries url ts⟩ }, false)) ∧
      (classifyError status err = FetchClass.SkipNoMark →
        onError status err url purl ts st = (st, false))) := by
  refine ⟨?_, ?_, ?_, ?_, ?_, ?_⟩
  · intro err
    simp [classify, acceptableStatus, classifyError]
  · intro s err h
    rcases h with h | h | h <;> subst h <;>
      simp [classify, acceptableStatus, classifyError]
  · intro s e h ht
    push_neg at h
    obtain ⟨h1, h2, h3, h4⟩ := h
    simp [classify, classifyError, h1, h2, h3, h4, ht]
  · intro s e h ht
    push_neg at h
    obtain ⟨h1, h2, h3, h4⟩ := h
    simp [classify, classifyError, h1, h2, h3, h4, ht]
  · intro s hs
    simp [classify, hs]
  · intro st url ts purl status err hpurl
    by_cases h404 : status = 404
    · subst h404
      refine ⟨?_, ?_, ?_⟩ <;> intro hcls
      · simp [classifyError] at hcls
      · simp [onError, MarkVisited, hpurl]
      · simp [classifyError] at hcls
    · by_cases hblock : status = 403 ∨ status = 429 ∨ status = 503
      · have hb : (decide (status = 403) || decide (status = 429)
            || decide (status = 503)) = true := by
          rcases hblock with h | h | h <;> simp [h]
        refine ⟨?_, ?_, ?_⟩ <;> intro hcls
        · simp [onError, h404, hb, hpurl]
        · simp [classifyError, h404, hb] at hcls
        · simp [classifyError, h404, hb] at hcls
      · push_neg at hblock
        obtain ⟨h2, h3, h4⟩ := hblock
        cases err with
        | none =>
          refine ⟨?_, ?_, ?_⟩ <;> intro hcls
          · simp [classifyError, h404, h2, h3, h4] at hcls
          · simp [classifyError, h404, h2, h3, h4] at hcls
          · simp [onError, h404, h2, h3, h4]
        | some e =>
          by_cases ht : isTransportErrText e
          · refine ⟨?_, ?_, ?_⟩ <;> intro hcls
            · simp [onError, h404, h2, h3, h4, ht, hpurl]
            · simp [classifyError, h404, h2, h3, h4, ht] at hcls
            · simp [classifyError, h404, h2, h3, h4, ht] at hcls
          · refine ⟨?_, ?_, ?_⟩ <;> intro hcls
            · simp [classifyError, h404, h2, h3, h4, ht] at hcls
            · simp [classifyError, h404, h2, h3, h4, ht] at hcls
            · simp [onError, h404, h2, h3, h4, ht]

/-- Witness for C2 (amended): the spec's literal classifier vectors and a
429 eviction-and-retry. -/
theorem classifier_rules_amended_witness :
    classify 404 none = FetchClass.SkipAndMark ∧
    classify 429 none = FetchClass.Retryable ∧
    classify 0 (some "dial tcp: i/o timeout".data) = FetchClass.Retryable ∧
    classify 200 none = FetchClass.Success ∧
    classify 500 (some "boom".data) = FetchClass.SkipNoMark ∧
    onError 429 none "u" "http://a".data "ts" ⟨⟨["http://a".data], 0, 5⟩, ⟨[]⟩⟩
      = (⟨RemoveProxy ⟨["http://a".data], 0, 5⟩ "http://a".data, ⟨[]⟩⟩, true) :=
  ⟨classifier_rules_amended.1 none,
   classifier_rules_amended.2.1 429 none (Or.inr (Or.inl rfl)),
   classifier_rules_amended.2.2.1 0 "dial tcp: i/o timeout".data (by decide)
     (by decide),
   classifier_rules_amended.2.2.2.2.1 200 (by decide),
   classifier_rules_amended.2.2.2.1 500 "boom".data (by decide) (by decide),
   (classifier_rules_amended.2.2.2.2.2 ⟨⟨["http://a".data], 0, 5⟩, ⟨[]⟩⟩
       "u" "ts" "http://a".data 429 none (by decide)).1 (by decide)⟩

/-- C7 (code bug): `asyncRefresh` is not single-flight.  In the schedule
below goroutine 1 is triggered while goroutine 0 is mid-refresh
(`isRefreshing = true`, goroutine 1 blocked on `refreshLock` with no
progress), yet after goroutine 0 finishes — its deferred
`isRefreshing = false` runs before the deferred `Unlock` — goroutine 1
acquires the lock, observes `isRefreshing = false`, and performs a second
supplier call: two triggers yield two `fetchProxies` invocations instead
of the claimed one. -/
theorem asyncRefresh_not_single_flight :
    (runSchedule [0, 0, 0] twoTriggers).isRefreshing = true ∧
    (runSchedule [0, 0, 0] twoTriggers).pcs = [3, 0] ∧
    refreshStep (runSchedule [0, 0, 0] twoTriggers) 1
      = runSchedule [0, 0, 0] twoTriggers ∧
    (runSchedule [0, 0, 0, 1, 0, 0, 0, 1, 1, 1, 1, 1, 1]
        twoTriggers).supplierCalls = 2 ∧
    (runSchedule [0, 0, 0, 1, 0, 0, 0, 1, 1, 1, 1, 1, 1] twoTriggers).pcs
      = [6, 6] ∧
    (runSchedule [0, 0, 0, 1, 0, 0, 0, 1, 1, 1, 1, 1, 1]
        twoTriggers).isRefreshing = false := by
  refine ⟨by decide, by decide, by decide, by decide, by decide, by decide⟩

theorem splitOnChar_not_mem (sep : Char) (l : GoStr) (h : sep ∉ l) :
    splitOnChar sep l = [l] := by
  induction l with
  | nil => rfl
  | cons c rest ih =>
    have hc : ¬ c = sep := fun he => h (he ▸ List.mem_cons_self c rest)
    have hr : sep ∉ rest := fun hm => h (List.mem_cons_of_mem c hm)
    simp [splitOnChar, hc, ih hr]

theorem splitOnChar_append (sep : Char) (xs ys : GoStr) (h : sep ∉ xs) :
    splitOnChar sep (xs ++ sep :: ys) = xs :: splitOnChar sep ys := by
  induction xs with
  | nil => simp [splitOnChar]
  | cons c rest ih =>
    have hc : ¬ c = sep := fun he => h (he ▸ List.mem_cons_self c rest)
    have hr : sep ∉ rest := fun hm => h (List.mem_cons_of_mem c hm)
    simp only [List.cons_append, splitOnChar, hc, if_false]
    rw [List.append_eq, ih hr]

theorem removeCR_of_not_mem (l : GoStr) (h : '\r' ∉ l) : removeCR l = l := by
  unfold removeCR
  apply List.filter_eq_self.mpr
  intro a ha
  simp only [decide_eq_true_eq]
  exact fun he => h (he ▸ ha)

theorem mem_of_mem_dropWhile (f : Char → Bool) (l : GoStr) (a : Char)
    (h : a ∈ l.dropWhile f) : a ∈ l := by
  induction l with
  | nil => simp at h
  | cons x rest ih =>
    rw [List.dropWhile_cons] at h
    by_cases hx : f x
    · simp only [hx, if_true] at h
      exact List.mem_cons_of_mem x (ih h)
    · simpa [hx] using h

theorem mem_trimSpace (l : GoStr) (a : Char) (h : a ∈ trimSpace l) : a ∈ l := by
  unfold trimSpace at h
  rw [List.mem_reverse] at h
  have h1 := mem_of_mem_dropWhile _ _ _ h
  rw [List.mem_reverse] at h1
  exact mem_of_mem_dropWhile _ _ _ h1

theorem dropWhile_append_one (f : Char → Bool) (c : Char) (hc : f c = true)
    (xs : GoStr) :
    List.dropWhile f (xs ++ [c])
      = if (List.dropWhile f xs).isEmpty then []
        else List.dropWhile f xs ++ [c] := by
  induction xs with
  | nil => simp [List.dropWhile, hc]
  | cons x rest ih =>
    by_cases hx : f x
    · simp [List.dropWhile_cons, hx, ih]
    · simp [List.dropWhile_cons, hx]

theorem trimSpace_append_space (l : GoStr) (c : Char) (hc : isGoSpace c = true) :
    trimSpace (l ++ [c]) = trimSpace l := by
  unfold trimSpace
  rw [dropWhile_append_one isGoSpace c hc l]
  by_cases he : (l.dropWhile isGoSpace).isEmpty
  · have hnil : l.dropWhile isGoSpace = [] := by
      simpa [List.isEmpty_iff] using he
    simp [he, hnil]
  · rw [Bool.not_eq_true] at he
    rw [he]
    simp [List.reverse_append, List.dropWhile_cons, hc]

theorem formatProxy_ne_nil (r : GoStr) : formatProxy r ≠ [] := by
  simp only [formatProxy]
  split
  · rename_i h
    intro he
    rw [he] at h
    revert h
    decide
  · simp [httpMarker]

theorem parseLine_eq_cleanEntry (raw : GoStr) (hm : '\r' ∉ raw) :
    parseLine raw = cleanEntry raw := by
  have hcr : '\r' ∉ trimSpace raw := fun hh => hm (mem_trimSpace raw _ hh)
  unfold parseLine
  rw [removeCR_of_not_mem _ hcr]
  by_cases h : trimSpace raw = []
  · simp [h, cleanEntry]
  · simp [h, cleanEntry, formatProxy_ne_nil (trimSpace raw)]

theorem parseLine_cr_eq_cleanEntry (raw : GoStr) (hm : '\r' ∉ raw) :
    parseLine (raw ++ ['\r']) = cleanEntry raw := by
  have hcr : '\r' ∉ trimSpace raw := fun hh => hm (mem_trimSpace raw _ hh)
  unfold parseLine
  rw [trimSpace_append_space raw '\r' (by decide)]
  rw [removeCR_of_not_mem _ hcr]
  by_cases h : trimSpace raw = []
  · simp [h, cleanEntry]
  · simp [h, cleanEntry, formatProxy_ne_nil (trimSpace raw)]

theorem parseProxies_joinLF (lines : List GoStr) :
    (∀ l ∈ lines, '\n' ∉ l ∧ '\r' ∉ l) →
      parseProxies (joinSep ['\n'] lines) = lines.filterMap cleanEntry := by
  induction lines with
  | nil => intro _; rfl
  | cons l rest ih =>
    intro h
    have hl := h l (List.mem_cons_self l rest)
    cases rest with
    | nil =>
      show parseProxies l = List.filterMap cleanEntry [l]
      unfold parseProxies
      rw [splitOnChar_not_mem '\n' l hl.1]
      simp [List.filterMap_cons, parseLine_eq_cleanEntry l hl.2]
    | cons l2 rest2 =>
      have hrest : ∀ x ∈ l2 :: rest2, '\n' ∉ x ∧ '\r' ∉ x :=
        fun x hx => h x (List.mem_cons_of_mem l hx)
      have hjoin : joinSep ['\n'] (l :: l2 :: rest2)
          = l ++ '\n' :: joinSep ['\n'] (l2 :: rest2) := by
        simp [joinSep]
      rw [hjoin]
      unfold parseProxies
      rw [splitOnChar_append '\n' l _ hl.1]
      rw [List.filterMap_cons, parseLine_eq_cleanEntry l hl.2]
      have htail : List.filterMap parseLine
            (splitOnChar '\n' (joinSep ['\n'] (l2 :: rest2)))
          = List.filterMap cleanEntry (l2 :: rest2) := ih hrest
      rw [List.filterMap_cons]
      cases cleanEntry l <;> simp [htail]

theorem parseProxies_joinCRLF (lines : List GoStr) :
    (∀ l ∈ lines, '\n' ∉ l ∧ '\r' ∉ l) →
      parseProxies (joinSep ['\r', '\n'] lines)
        = lines.filterMap cleanEntry := by
  induction lines with
  | nil => intro _; rfl
  | cons l rest ih =>
    intro h
    have hl := h l (List.mem_cons_self l rest)
    cases rest with
    | nil =>
      show parseProxies l = List.filterMap cleanEntry [l]
      unfold parseProxies
      rw [splitOnChar_not_mem '\n' l hl.1]
      simp [List.filterMap_cons, parseLine_eq_cleanEntry l hl.2]
    | cons l2 rest2 =>
      have hrest : ∀ x ∈ l2 :: rest2, '\n' ∉ x ∧ '\r' ∉ x :=
        fun x hx => h x (List.mem_cons_of_mem l hx)
      have hjoin : joinSep ['\r', '\n'] (l :: l2 :: rest2)
          = (l ++ ['\r']) ++ '\n' :: joinSep ['\r', '\n'] (l2 :: rest2) := by
        simp [joinSep]
      rw [hjoin]
      have hnocr : '\n' ∉ l ++ ['\r'] := by
        intro hx
        rcases List.mem_append.mp hx with hx | hx
        · exact hl.1 hx
        · simp at hx
      unfold parseProxies
      rw [splitOnChar_append '\n' (l ++ ['\r']) _ hnocr]
      rw [List.filterMap_cons, parseLine_cr_eq_cleanEntry l hl.2]
      have htail : List.filterMap parseLine
            (splitOnChar '\n' (joinSep ['\r', '\n'] (l2 :: rest2)))
          = List.filterMap cleanEntry (l2 :: rest2) := ih hrest
      rw [List.filterMap_cons]
      cases cleanEntry l <;> simp [htail]

/-- C8: the supplier body is split into lines tolerating both `\n` and
`\r\n` terminators, each line is trimmed of whitespace, blank lines are
skipped (`cleanEntry` is `none` exactly on blank-after-trim lines), and
each remaining entry is normalized to carry an explicit scheme — kept
unchanged when it already starts with `http://` or `https://`, prefixed
with the unencrypted `http://` scheme otherwise. -/
theorem parseProxies_lineProtocol :
    (∀ lines : List GoStr, (∀ l ∈ lines, '\n' ∉ l ∧ '\r' ∉ l) →
      parseProxies (joinSep ['\r', '\n'] lines) = lines.filterMap cleanEntry ∧
      parseProxies (joinSep ['\n'] lines) = lines.filterMap cleanEntry) ∧
    (∀ l : GoStr, cleanEntry l = none ↔ trimSpace l = []) ∧
    (∀ raw : GoStr, hasHttpScheme (trimSpace raw) = true →
      formatProxy raw = trimSpace raw) ∧
    (∀ raw : GoStr, hasHttpScheme (trimSpace raw) = false →
      formatProxy raw = httpMarker ++ trimSpace raw) := by
  refine ⟨fun lines h => ⟨parseProxies_joinCRLF lines h,
    parseProxies_joinLF lines h⟩, ?_, ?_, ?_⟩
  · intro l
    by_cases h : trimSpace l = [] <;> simp [cleanEntry, h]
  · intro raw h
    unfold hasHttpScheme at h
    simp [formatProxy, h]
  · intro raw h
    unfold hasHttpScheme at h
    simp [formatProxy, h]

/-- Witness for C8: a CRLF-terminated body with one unprefixed entry, one
blank line and one `https`-prefixed entry with surrounding spaces. -/
theorem parseProxies_lineProtocol_witness :
    parseProxies (joinSep ['\r', '\n']
        ["1.2.3.4:80".data, "".data, " https://5.6.7.8:81 ".data])
      = List.filterMap cleanEntry
          ["1.2.3.4:80".data, "".data, " https://5.6.7.8:81 ".data] :=
  (parseProxies_lineProtocol.1
    ["1.2.3.4:80".data, "".data, " https://5.6.7.8:81 ".data] (by decide)).1

theorem hasHttpScheme_formatProxy (raw : GoStr) :
    hasHttpScheme (formatProxy raw) = true := by
  simp only [formatProxy]
  split
  · rename_i h
    exact h
  · unfold hasHttpScheme
    have hpre : httpMarker.isPrefixOf (httpMarker ++ trimSpace raw) = true := by
      rw [List.isPrefixOf_iff_prefix]
      exact List.prefix_append _ _
    simp [hpre]

theorem parseProxies_scheme (b : GoStr) (p : GoStr)
    (hp : p ∈ parseProxies b) : hasHttpScheme p = true := by
  unfold parseProxies at hp
  rw [List.mem_filterMap] at hp
  obtain ⟨raw, _, hraw⟩ := hp
  unfold parseLine at hraw
  by_cases h1 : removeCR (trimSpace raw) = []
  · simp [h1] at hraw
  · simp [h1, formatProxy_ne_nil (removeCR (trimSpace raw))] at hraw
    rw [← hraw]
    exact hasHttpScheme_formatProxy (removeCR (trimSpace raw))

theorem selectProxy_pm_proxies (pm : ProxyManager) (c : Nat) :
    (selectProxy pm c).pm.proxies = pm.proxies := by
  unfold selectProxy
  split <;> rfl

theorem schemeInv_of_proxies_eq (p q : ProxyManager)
    (he : q.proxies = p.proxies) (h : schemeInv p) : schemeInv q := by
  unfold schemeInv at h ⊢
  rw [he]
  exact h

theorem GetProxy_pm_proxies (r : SupplierResult) (pm : ProxyManager) :
    (GetProxy r pm).pm.proxies = pm.proxies ∨
    ∃ b, r = SupplierResult.response 200 (some b) ∧
      (GetProxy r pm).pm.proxies = parseProxies b := by
  by_cases hlen : pm.proxies.length = 0
  · rcases r with _ | ⟨code, body⟩
    · left; simp [GetProxy, hlen, fetchProxies]
    · by_cases hc : code = 200
      · subst hc
        rcases body with _ | b
        · left; simp [GetProxy, hlen, fetchProxies]
        · right
          refine ⟨b, rfl, ?_⟩
          simp only [GetProxy, hlen, if_true, eq_self_iff_true, fetchProxies]
          by_cases hb : (parseProxies b).length = 0
          · simp [hb]
          · simp [hb, selectProxy_pm_proxies]
      · left; rcases body with _ | b <;> simp [GetProxy, hlen, fetchProxies, hc]
  · left
    rw [GetProxy_of_ne r pm hlen]
    exact selectProxy_pm_proxies pm 0

/-- C10: every pool entry carries an explicit `http://` or `https://`
prefix — `parseProxies` establishes it, `fetchProxies`, `RemoveProxy` and
`GetProxy` preserve it — and consequently the scheme extraction of
`url.Parse` on any pool entry yields `http` or `https`. -/
theorem poolScheme_invariant (pm : ProxyManager) (r : SupplierResult)
    (a : GoStr) (h : schemeInv pm) :
    (∀ b : GoStr, ∀ p ∈ parseProxies b, hasHttpScheme p = true) ∧
    schemeInv (fetchProxies r pm).2 ∧
    schemeInv (RemoveProxy pm a) ∧
    schemeInv (GetProxy r pm).pm ∧
    (∀ p : GoStr, hasHttpScheme p = true →
      getScheme p = some ['h', 't', 't', 'p'] ∨
      getScheme p = some ['h', 't', 't', 'p', 's']) := by
  have hparse : ∀ b : GoStr, ∀ p ∈ parseProxies b, hasHttpScheme p = true :=
    fun b p hp => parseProxies_scheme b p hp
  have hfetch : schemeInv (fetchProxies r pm).2 := by
    rcases r with _ | ⟨code, body⟩
    · exact h
    · by_cases hc : code = 200
      · subst hc
        rcases body with _ | b
        · simpa [fetchProxies] using h
        · intro p hp
          simp only [fetchProxies] at hp
          exact hparse b p (by simpa using hp)
      · rcases body with _ | b <;> simpa [fetchProxies, hc] using h
  refine ⟨hparse, hfetch, ?_, ?_, ?_⟩
  · intro p hp
    rw [RemoveProxy_proxies_erase pm a] at hp
    exact h p (List.mem_of_mem_erase hp)
  · rcases GetProxy_pm_proxies r pm with he | ⟨b, _, he⟩
    · exact schemeInv_of_proxies_eq pm _ he h
    · intro p hp
      rw [he] at hp
      exact hparse b p hp
  · intro p hp
    unfold hasHttpScheme at hp
    simp only [Bool.or_eq_true] at hp
    rcases hp with h1 | h1
    · left
      rw [List.isPrefixOf_iff_prefix] at h1
      obtain ⟨t, ht⟩ := h1
      rw [← ht]
      rfl
    · right
      rw [List.isPrefixOf_iff_prefix] at h1
      obtain ⟨t, ht⟩ := h1
      rw [← ht]
      rfl

/-- Witness for C10: the invariant on a concrete two-scheme pool survives
an eviction. -/
theorem poolScheme_invariant_witness :
    schemeInv (RemoveProxy ⟨["http://a".data, "https://b".data], 0, 5⟩
      "http://a".data) :=
  (poolScheme_invariant ⟨["http://a".data, "https://b".data], 0, 5⟩
      SupplierResult.requestError "http://a".data (by decide)).2.2.1
